import Mathlib

/-!
Shallow embedding of the valuation core of `src/app.py` (fund real-time
valuation dashboard): the identifier normalizer, the batch quote fetcher,
the holdings-snapshot selector and the fund valuation estimator.

Modelling conventions: Python floats are exact rationals (`ℚ`); Python
strings are Lean `String`s manipulated through their character lists;
Python dicts are association lists updated in place; network responses and
externally fetched tables are explicit inputs.  Python's regex digit class
is modelled as the ASCII decimal digits, and `str.strip` as trimming ASCII
whitespace; the inputs relevant to the specification only involve ASCII
markers and digits.
-/

namespace MomsFund

/-- Whitespace test modelling Python str.strip's character class. -/
def isPySpace (c : Char) : Bool := c.isWhitespace

/-- Model of Python str.strip: drop leading and trailing whitespace. -/
def stripChars (l : List Char) : List Char :=
  ((l.dropWhile isPySpace).reverse.dropWhile isPySpace).reverse

/-- Model of re.sub(r"\D", "", s): keep only the decimal digit characters. -/
def pyDigits (l : List Char) : List Char := l.filter Char.isDigit

/-- Model of Python str.zfill: left-pad with zero characters to the width. -/
def zfillChars (w : Nat) (l : List Char) : List Char :=
  List.replicate (w - l.length) '0' ++ l

/-- Python s[-n:]: the last n characters (the whole list when shorter). -/
def lastN (n : Nat) (l : List Char) : List Char := l.drop (l.length - n)

/-- Model of Python str.lower, character by character. -/
def lowerChars (l : List Char) : List Char := l.map Char.toLower

/-- Model of Python str.upper, character by character. -/
def upperChars (l : List Char) : List Char := l.map Char.toUpper

/-- Does the two-character sequence a,b occur contiguously in the list
(Python's substring membership test for a two-character pattern)? -/
def containsSeq2 (a b : Char) : List Char → Bool
  | [] => false
  | [_] => false
  | c :: d :: rest => (c = a && d = b) || containsSeq2 a b (d :: rest)

/-- Embedding of normalize_stock_code (src/app.py lines 165-177). -/
def normalize_stock_code (value : String) : String :=
  let value_str := stripChars value.data
  if value_str = [] then ""
  else if List.isPrefixOf ['h', 'k'] (lowerChars value_str) then
    let digits := pyDigits value_str
    if digits = [] then "" else String.mk (zfillChars 5 digits)
  else
    let digits := pyDigits value_str
    if 6 ≤ digits.length then String.mk (lastN 6 digits)
    else if digits.length = 5 ∧ digits.head? = some '0' then String.mk digits
    else String.mk digits

/-- Embedding of is_hk_stock (src/app.py lines 179-187). -/
def is_hk_stock (code name : String) : Bool :=
  let digits := pyDigits code.data
  if digits ≠ [] ∧ digits.length = 5 ∧ digits.head? = some '0' then true
  else if containsSeq2 'H' 'K' (upperChars name.data) then true
  else if List.isPrefixOf ['h', 'k'] (lowerChars code.data) then true
  else false

/-! Character-class facts used throughout the normalizer proofs. -/

theorem digit_val (c : Char) (h : c.isDigit = true) : 48 ≤ c.toNat ∧ c.toNat ≤ 57 := by
  simp only [Char.isDigit, Bool.and_eq_true, decide_eq_true_eq] at h
  exact ⟨h.1, h.2⟩

theorem digit_toLower (c : Char) (h : c.isDigit = true) : c.toLower = c := by
  have hv := digit_val c h
  simp only [Char.toLower]
  rw [if_neg]
  omega

theorem digit_not_space (c : Char) (h : c.isDigit = true) : isPySpace c = false := by
  have hv := digit_val c h
  simp only [isPySpace, Char.isWhitespace, Bool.or_eq_false_iff, decide_eq_false_iff_not]
  refine ⟨⟨⟨?_, ?_⟩, ?_⟩, ?_⟩ <;> (intro hc; subst hc; revert hv; decide)

theorem digit_ne_h (c : Char) (h : c.isDigit = true) : c ≠ 'h' := by
  have hv := digit_val c h
  intro hc; subst hc; revert hv; decide

theorem zero_is_digit : Char.isDigit '0' = true := by decide

theorem mem_pyDigits {l : List Char} {c : Char} (h : c ∈ pyDigits l) : c.isDigit = true :=
  (List.mem_filter.mp h).2

theorem dropWhile_no_space (l : List Char) (h : ∀ c ∈ l, isPySpace c = false) :
    l.dropWhile isPySpace = l := by
  cases l with
  | nil => rfl
  | cons c cs => simp [List.dropWhile_cons, h c (by simp)]

theorem stripChars_eq_self (l : List Char) (h : ∀ c ∈ l, isPySpace c = false) :
    stripChars l = l := by
  unfold stripChars
  rw [dropWhile_no_space l h,
    dropWhile_no_space _ (fun c hc => h c (List.mem_reverse.mp hc)), List.reverse_reverse]

theorem pyDigits_eq_self (l : List Char) (h : ∀ c ∈ l, c.isDigit = true) :
    pyDigits l = l := List.filter_eq_self.mpr h

theorem lowerChars_of_digits (l : List Char) (h : ∀ c ∈ l, c.isDigit = true) :
    lowerChars l = l := by
  unfold lowerChars
  rw [List.map_congr_left (fun c hc => digit_toLower c (h c hc))]
  simp

theorem string_mk_data (s : String) : String.mk s.data = s := rfl

/-- Every character of a normalized identifier is a decimal digit. -/
theorem normalize_all_digits (s : String) :
    ∀ c ∈ (normalize_stock_code s).data, c.isDigit = true := by
  intro c hc
  unfold normalize_stock_code at hc
  dsimp only at hc
  split at hc
  · simp at hc
  · split at hc
    · split at hc
      · simp at hc
      · simp only [String.mk, zfillChars, List.mem_append, List.mem_replicate] at hc
        rcases hc with h1 | h2
        · rw [h1.2]; exact zero_is_digit
        · exact mem_pyDigits h2
    · split at hc
      · exact mem_pyDigits (List.mem_of_mem_drop hc)
      · split at hc
        · exact mem_pyDigits hc
        · exact mem_pyDigits hc

/-- Normalization is the identity on pure digit strings of at most 6 characters. -/
theorem normalize_of_digit_string (d : String) (hd : ∀ c ∈ d.data, c.isDigit = true)
    (hlen : d.length ≤ 6) : normalize_stock_code d = d := by
  unfold normalize_stock_code
  rw [stripChars_eq_self d.data (fun c hc => digit_not_space c (hd c hc))]
  cases hdat : d.data with
  | nil =>
    simp only [if_pos rfl]
    cases d with
    | mk l => simp only at hdat; rw [hdat]; rfl
  | cons c cs =>
    have hc : c.isDigit = true := hd c (by rw [hdat]; simp)
    rw [if_neg (by simp)]
    rw [← hdat]
    rw [lowerChars_of_digits d.data hd]
    rw [if_neg (by
      rw [hdat]
      simp only [List.isPrefixOf, Bool.and_eq_true, beq_iff_eq]
      intro hcontra
      exact digit_ne_h c hc hcontra.1.symm)]
    rw [pyDigits_eq_self d.data hd]
    have hlen' : d.data.length ≤ 6 := hlen
    by_cases h6 : 6 ≤ d.data.length
    · rw [if_pos h6]
      have hsix : d.data.length = 6 := le_antisymm hlen' h6
      unfold lastN
      rw [hsix]
      simp [string_mk_data]
    · rw [if_neg h6]
      by_cases h5 : d.data.length = 5 ∧ d.data.head? = some '0'
      · rw [if_pos h5]
      · rw [if_neg h5]

/-- C7: normalize on a Hong-Kong-marked input with between one and five digits
yields exactly five digit characters, and a non-HK input with at least six
digits yields exactly six digit characters.  (The claim's unrestricted HK part
fails for HK inputs with more than five digits, see the counterexample.) -/
theorem c7_fixed_width_amended :
    (∀ s : String, List.isPrefixOf ['h', 'k'] (lowerChars (stripChars s.data)) = true →
      1 ≤ (pyDigits (stripChars s.data)).length →
      (pyDigits (stripChars s.data)).length ≤ 5 →
      (normalize_stock_code s).length = 5 ∧
        (normalize_stock_code s).data.all Char.isDigit = true) ∧
    (∀ s : String, List.isPrefixOf ['h', 'k'] (lowerChars (stripChars s.data)) = false →
      6 ≤ (pyDigits (stripChars s.data)).length →
      (normalize_stock_code s).length = 6 ∧
        (normalize_stock_code s).data.all Char.isDigit = true) := by
  constructor
  · intro s hk h1 h5
    have hne : stripChars s.data ≠ [] := by
      intro hmt
      rw [hmt] at hk
      simp [lowerChars, List.isPrefixOf] at hk
    have hdne : pyDigits (stripChars s.data) ≠ [] := by
      intro hmt; rw [hmt] at h1; simp at h1
    have hval : normalize_stock_code s =
        String.mk (zfillChars 5 (pyDigits (stripChars s.data))) := by
      unfold normalize_stock_code
      rw [if_neg hne, if_pos hk, if_neg hdne]
    refine ⟨?_, List.all_eq_true.mpr (normalize_all_digits s)⟩
    rw [hval]
    show (zfillChars 5 (pyDigits (stripChars s.data))).length = 5
    unfold zfillChars
    rw [List.length_append, List.length_replicate]
    omega
  · intro s hk h6
    have hne : stripChars s.data ≠ [] := by
      intro hmt
      have : pyDigits (stripChars s.data) = [] := by rw [hmt]; rfl
      rw [this] at h6; simp at h6
    have hval : normalize_stock_code s =
        String.mk (lastN 6 (pyDigits (stripChars s.data))) := by
      unfold normalize_stock_code
      rw [if_neg hne, hk, if_pos h6]
      simp
    refine ⟨?_, List.all_eq_true.mpr (normalize_all_digits s)⟩
    rw [hval]
    show (lastN 6 (pyDigits (stripChars s.data))).length = 6
    unfold lastN
    rw [List.length_drop]
    omega

/-- Witness for c7_fixed_width_amended: a 3-digit HK code pads to width 5 and a
suffixed mainland code truncates to width 6. -/
theorem c7_fixed_width_amended_witness :
    ((normalize_stock_code "HK700").length = 5 ∧
      (normalize_stock_code "HK700").data.all Char.isDigit = true) ∧
    ((normalize_stock_code "000001.SZ").length = 6 ∧
      (normalize_stock_code "000001.SZ").data.all Char.isDigit = true) :=
  ⟨c7_fixed_width_amended.1 "HK700" (by decide) (by decide) (by decide),
   c7_fixed_width_amended.2 "000001.SZ" (by decide) (by decide)⟩

/-- C7 counterexample: an HK-marked input carrying seven digits normalizes to a
seven-character string, not a five-digit one, because zfill never truncates. -/
theorem c7_hk_overlong_counterexample :
    List.isPrefixOf ['h', 'k'] (lowerChars (stripChars ("hk1234567" : String).data)) = true ∧
    1 ≤ (pyDigits (stripChars ("hk1234567" : String).data)).length ∧
    normalize_stock_code "hk1234567" = "1234567" ∧
    (normalize_stock_code "hk1234567").length ≠ 5 := by decide

/-- C8 counterexample: normalization is not idempotent on the HK-marked input
hk1234567, whose normal form renormalizes to a different string. -/
theorem c8_idempotent_counterexample :
    normalize_stock_code (normalize_stock_code "hk1234567") ≠
      normalize_stock_code "hk1234567" := by decide

/-- C8 amended: normalization is idempotent on every input whose normal form is
at most six characters long (every input except HK-marked ones carrying seven
or more digits). -/
theorem c8_idempotent_amended (s : String) (h : (normalize_stock_code s).length ≤ 6) :
    normalize_stock_code (normalize_stock_code s) = normalize_stock_code s :=
  normalize_of_digit_string _ (normalize_all_digits s) h

/-- Witness for c8_idempotent_amended at a venue-suffixed mainland code. -/
theorem c8_idempotent_amended_witness :
    (normalize_stock_code "sh600519").length ≤ 6 ∧
    normalize_stock_code (normalize_stock_code "sh600519") =
      normalize_stock_code "sh600519" :=
  ⟨by decide, c8_idempotent_amended "sh600519" (by decide)⟩

/-- C10: for every input string, normalization returns (without any failure) a
string made only of decimal digit characters. -/
theorem c10_normalize_digits_only (s : String) :
    (normalize_stock_code s).data.all Char.isDigit = true :=
  List.all_eq_true.mpr (normalize_all_digits s)

/-! ## Data model of the valuation estimator -/

/-- An association map from canonical security identifiers to floats,
modelling the Python dicts a_prices / a_changes. -/
abbrev QMap := List (String × ℚ)

/-- Dict lookup. -/
def lookupQ (m : QMap) (k : String) : Option ℚ := List.lookup k m

/-- One line of a fund's disclosed top-holdings list, as produced by
get_fund_portfolio: dict with keys code, name, ratio. -/
structure Holding where
  code : String
  name : String
  ratio : ℚ
deriving DecidableEq

/-- One entry of the holdings detail a ValuationResult carries. -/
structure PortfolioDetail where
  name : String
  change : ℚ
  ratio : ℚ
deriving DecidableEq

/-- One row of the fund's NAV history (净值走势): the trading day is an
abstract day ordinal compared against today, dateStr is its display form. -/
structure NavPoint where
  date : Nat
  dateStr : String
  nav : ℚ
deriving DecidableEq

/-- The dict returned by calculate_fund_valuation.  The branch returning the
"no holdings data" result omits the last_nav key, hence the Option. -/
structure ValuationResult where
  code : String
  name : String
  current_price : ℚ
  change_pct : ℚ
  nav_date : String
  update_time : String
  is_estimated : Bool
  portfolio : List PortfolioDetail
  last_nav : Option ℚ
deriving DecidableEq

/-- Embedding of build_portfolio_details (src/app.py lines 657-672). -/
def build_portfolio_details (items : List Holding) (change_map : QMap) :
    List PortfolioDetail :=
  items.map (fun stock =>
    let s_code := normalize_stock_code stock.code
    let change := if s_code ≠ "" then (lookupQ change_map s_code).getD 0 else 0
    { name := stock.name, change := change, ratio := stock.ratio })

/-- Body of the estimator's per-holding accumulation loop (src/app.py lines
734-751): weighted change sum, total ratio, and the detail list. -/
def valuation_step (a_changes : QMap) (acc : ℚ × ℚ × List PortfolioDetail)
    (stock : Holding) : ℚ × ℚ × List PortfolioDetail :=
  let s_code := normalize_stock_code stock.code
  let change := (lookupQ a_changes s_code).getD 0
  (acc.1 + change * stock.ratio, acc.2.1 + stock.ratio,
    acc.2.2 ++ [{ name := stock.name, change := change, ratio := stock.ratio }])

/-- The live change the estimator resolves for one holding. -/
def resolved_change (a_changes : QMap) (stock : Holding) : ℚ :=
  (lookupQ a_changes (normalize_stock_code stock.code)).getD 0

/-- The detail record the estimation branch emits for one holding. -/
def detail_of (a_changes : QMap) (stock : Holding) : PortfolioDetail :=
  { name := stock.name, change := resolved_change a_changes stock, ratio := stock.ratio }

/-- The official day-over-day change the estimator reports when today's NAV
is already published (src/app.py lines 676-683): (last/prev - 1) * 100 when a
prior NAV row exists with positive NAV, else 0. -/
def official_change (nav_history : List NavPoint) (last_nav : ℚ) : ℚ :=
  if 2 ≤ nav_history.length then
    match nav_history.get? (nav_history.length - 2) with
    | some prevPoint =>
      if 0 < prevPoint.nav then (last_nav / prevPoint.nav - 1) * 100 else 0
    | none => 0
  else 0

/-- Embedding of calculate_fund_valuation (src/app.py lines 641-773).  The
external NAV fetch becomes the nav_history input, the current Shanghai date
becomes today, the clock string becomes now_time, and the lazily fetched
portfolio (get_fund_portfolio, called only when the caller passed None)
becomes fetched_portfolio.  The except-branch returning None is
unreachable for the typed inputs. -/
def calculate_fund_valuation (fund_code fund_name : String)
    (a_prices a_changes : QMap) (portfolio0 : Option (List Holding))
    (nav_history : List NavPoint) (today : Nat) (now_time : String)
    (fetched_portfolio : List Holding) : Option ValuationResult :=
  match nav_history.getLast? with
  | none => none
  | some lastPoint =>
    let last_nav := lastPoint.nav
    let last_date := lastPoint.dateStr
    if lastPoint.date = today then
      let official_change_pct := official_change nav_history last_nav
      let portfolio_details :=
        match portfolio0 with
        | some items => if items ≠ [] then build_portfolio_details items a_changes else []
        | none => []
      some { code := fund_code, name := fund_name, current_price := last_nav,
             change_pct := official_change_pct, nav_date := last_date,
             update_time := "✅ 官方更新", is_estimated := false,
             portfolio := portfolio_details, last_nav := some last_nav }
    else if a_changes = [] then
      some { code := fund_code, name := fund_name, current_price := last_nav,
             change_pct := 0, nav_date := last_date,
             update_time := "暂无实时 (昨日净值)", is_estimated := false,
             portfolio := [], last_nav := some last_nav }
    else
      let portfolio := portfolio0.getD fetched_portfolio
      if portfolio = [] then
        some { code := fund_code, name := fund_name, current_price := last_nav,
               change_pct := 0, nav_date := last_date,
               update_time := last_date ++ " (无持仓数据)", is_estimated := false,
               portfolio := [], last_nav := none }
      else
        let acc := portfolio.foldl (valuation_step a_changes) (0, 0, [])
        let estimated_change_pct := acc.1 / 100
        let estimated_price := last_nav * (1 + estimated_change_pct / 100)
        some { code := fund_code, name := fund_name, current_price := estimated_price,
               change_pct := estimated_change_pct, nav_date := last_date,
               update_time := now_time ++ " (估)", is_estimated := true,
               portfolio := acc.2.2, last_nav := some last_nav }

/-- Closed form of the estimator's accumulation loop. -/
theorem valuation_foldl (a_changes : QMap) (l : List Holding) (s t : ℚ)
    (d : List PortfolioDetail) :
    l.foldl (valuation_step a_changes) (s, t, d) =
      (s + (l.map (fun st => resolved_change a_changes st * st.ratio)).sum,
        t + (l.map (fun st => st.ratio)).sum,
        d ++ l.map (detail_of a_changes)) := by
  induction l generalizing s t d with
  | nil => simp
  | cons st rest ih =>
    simp only [List.foldl_cons, List.map_cons, List.sum_cons, List.cons_append]
    rw [show valuation_step a_changes (s, t, d) st =
        (s + resolved_change a_changes st * st.ratio, t + st.ratio,
          d ++ [detail_of a_changes st]) from rfl, ih]
    simp [add_assoc]

/-! Branch equations for the estimator, used by the claim theorems below. -/

/-- Equation for the branch where the last NAV date equals today. -/
theorem calc_official_eq
    (fund_code fund_name now_time : String) (a_prices a_changes : QMap)
    (portfolio0 : Option (List Holding)) (fetched_portfolio : List Holding)
    (nav_history : List NavPoint) (today : Nat) (p : NavPoint)
    (hlast : nav_history.getLast? = some p)
    (htoday : p.date = today) :
    calculate_fund_valuation fund_code fund_name a_prices a_changes portfolio0
        nav_history today now_time fetched_portfolio =
      some { code := fund_code, name := fund_name, current_price := p.nav,
             change_pct := official_change nav_history p.nav,
             nav_date := p.dateStr, update_time := "✅ 官方更新",
             is_estimated := false,
             portfolio := (match portfolio0 with
               | some items =>
                 if items ≠ [] then build_portfolio_details items a_changes else []
               | none => []),
             last_nav := some p.nav } := by
  unfold calculate_fund_valuation
  rw [hlast]
  simp only
  rw [if_pos htoday]

/-- Equation for the intraday branch with an empty live change map. -/
theorem calc_no_live_eq
    (fund_code fund_name now_time : String) (a_prices : QMap)
    (portfolio0 : Option (List Holding)) (fetched_portfolio : List Holding)
    (nav_history : List NavPoint) (today : Nat) (p : NavPoint)
    (hlast : nav_history.getLast? = some p)
    (hne : p.date ≠ today) :
    calculate_fund_valuation fund_code fund_name a_prices [] portfolio0
        nav_history today now_time fetched_portfolio =
      some { code := fund_code, name := fund_name, current_price := p.nav,
             change_pct := 0, nav_date := p.dateStr,
             update_time := "暂无实时 (昨日净值)", is_estimated := false,
             portfolio := [], last_nav := some p.nav } := by
  unfold calculate_fund_valuation
  rw [hlast]
  simp only
  rw [if_neg hne]
  simp

/-- Equation for the intraday branch with live data but no holdings. -/
theorem calc_no_holdings_eq
    (fund_code fund_name now_time : String) (a_prices a_changes : QMap)
    (portfolio0 : Option (List Holding)) (fetched_portfolio : List Holding)
    (nav_history : List NavPoint) (today : Nat) (p : NavPoint)
    (hlast : nav_history.getLast? = some p)
    (hne : p.date ≠ today)
    (hlive : a_changes ≠ [])
    (hempty : portfolio0.getD fetched_portfolio = []) :
    calculate_fund_valuation fund_code fund_name a_prices a_changes portfolio0
        nav_history today now_time fetched_portfolio =
      some { code := fund_code, name := fund_name, current_price := p.nav,
             change_pct := 0, nav_date := p.dateStr,
             update_time := p.dateStr ++ " (无持仓数据)", is_estimated := false,
             portfolio := [], last_nav := none } := by
  unfold calculate_fund_valuation
  rw [hlast]
  simp only
  rw [if_neg hne, if_neg hlive, if_pos hempty]

/-- Equation for the intraday estimation branch. -/
theorem calc_estimate_eq
    (fund_code fund_name now_time : String) (a_prices a_changes : QMap)
    (portfolio0 : Option (List Holding)) (fetched_portfolio : List Holding)
    (nav_history : List NavPoint) (today : Nat) (p : NavPoint)
    (hlast : nav_history.getLast? = some p)
    (hne : p.date ≠ today)
    (hlive : a_changes ≠ [])
    (hhold : portfolio0.getD fetched_portfolio ≠ []) :
    calculate_fund_valuation fund_code fund_name a_prices a_changes portfolio0
        nav_history today now_time fetched_portfolio =
      some { code := fund_code, name := fund_name,
             current_price := p.nav *
               (1 + (((portfolio0.getD fetched_portfolio).map (fun st =>
                   resolved_change a_changes st * st.ratio)).sum / 100) / 100),
             change_pct := ((portfolio0.getD fetched_portfolio).map (fun st =>
                 resolved_change a_changes st * st.ratio)).sum / 100,
             nav_date := p.dateStr, update_time := now_time ++ " (估)",
             is_estimated := true,
             portfolio := (portfolio0.getD fetched_portfolio).map (detail_of a_changes),
             last_nav := some p.nav } := by
  unfold calculate_fund_valuation
  rw [hlast]
  simp only
  rw [if_neg hne, if_neg hlive, if_neg hhold]
  rw [valuation_foldl]
  simp

/-- C1: in the intraday case (stale NAV date, live data present, holdings
present) the estimator returns the weighted estimate: change is the sum of
resolved live change (0 when the normalized identifier is unmatched) times
disclosed weight over all holdings, divided by the fixed 100, with
is_estimated true and price lastNav * (1 + change/100). -/
theorem c1_intraday_weighted_estimate
    (fund_code fund_name now_time : String) (a_prices a_changes : QMap)
    (portfolio0 : Option (List Holding)) (fetched_portfolio : List Holding)
    (nav_history : List NavPoint) (today : Nat) (p : NavPoint)
    (hlast : nav_history.getLast? = some p)
    (hpast : p.date < today)
    (hlive : a_changes ≠ [])
    (hhold : portfolio0.getD fetched_portfolio ≠ []) :
    calculate_fund_valuation fund_code fund_name a_prices a_changes portfolio0
        nav_history today now_time fetched_portfolio =
      some { code := fund_code, name := fund_name,
             current_price := p.nav *
               (1 + (((portfolio0.getD fetched_portfolio).map (fun st =>
                   resolved_change a_changes st * st.ratio)).sum / 100) / 100),
             change_pct := ((portfolio0.getD fetched_portfolio).map (fun st =>
                 resolved_change a_changes st * st.ratio)).sum / 100,
             nav_date := p.dateStr, update_time := now_time ++ " (估)",
             is_estimated := true,
             portfolio := (portfolio0.getD fetched_portfolio).map (detail_of a_changes),
             last_nav := some p.nav } :=
  calc_estimate_eq fund_code fund_name now_time a_prices a_changes portfolio0
    fetched_portfolio nav_history today p hlast (Nat.ne_of_lt hpast) hlive hhold

/-- Witness for c1_intraday_weighted_estimate: the spec's end-to-end example,
lastNav 1.5, holdings (+10 percent, weight 5) and (-2 percent, weight 3),
giving change 0.44 and price 1.5066. -/
theorem c1_intraday_weighted_estimate_witness :
    (calculate_fund_valuation "F" "基" [] [("600519", 10), ("000001", -2)]
        (some [{ code := "600519", name := "甲", ratio := 5 },
               { code := "000001", name := "乙", ratio := 3 }])
        [{ date := 0, dateStr := "2024-05-09", nav := 3/2 }] 1 "09:30:00" []).map
      (fun r => (r.change_pct, r.current_price, r.is_estimated)) =
    some (11/25, 7533/5000, true) := by
  rw [c1_intraday_weighted_estimate "F" "基" "09:30:00" []
      [("600519", 10), ("000001", -2)]
      (some [{ code := "600519", name := "甲", ratio := 5 },
             { code := "000001", name := "乙", ratio := 3 }]) []
      [{ date := 0, dateStr := "2024-05-09", nav := 3/2 }] 1
      { date := 0, dateStr := "2024-05-09", nav := 3/2 }
      rfl (by decide) (by simp) (by simp)]
  have h1 : resolved_change [("600519", 10), ("000001", -2)]
      { code := "600519", name := "甲", ratio := 5 } = 10 := by
    have : normalize_stock_code "600519" = "600519" := by decide
    simp [resolved_change, lookupQ, this, List.lookup]
  have h2 : resolved_change [("600519", 10), ("000001", -2)]
      { code := "000001", name := "乙", ratio := 3 } = -2 := by
    have : normalize_stock_code "000001" = "000001" := by decide
    simp [resolved_change, lookupQ, this, List.lookup]
  simp only [Option.map_some', Option.getD, List.map_cons, List.map_nil,
    List.sum_cons, List.sum_nil, h1, h2]
  norm_num

/-- C2: when the last disclosed NAV date equals today, the estimator reports
the NAV itself as the price with is_estimated false; the change is
(last/prior - 1) * 100 when a prior NAV exists and is positive and 0
otherwise; and price, change and is_estimated do not depend on the supplied
live change map or holdings. -/
theorem c2_official_nav_published
    (fund_code fund_name now_time : String) (a_prices a_changes : QMap)
    (portfolio0 : Option (List Holding)) (fetched_portfolio : List Holding)
    (nav_history : List NavPoint) (today : Nat) (p : NavPoint)
    (hlast : nav_history.getLast? = some p)
    (htoday : p.date = today) :
    ∃ r, calculate_fund_valuation fund_code fund_name a_prices a_changes portfolio0
        nav_history today now_time fetched_portfolio = some r ∧
      r.current_price = p.nav ∧ r.is_estimated = false ∧
      r.change_pct = official_change nav_history p.nav ∧
      (∀ q, 2 ≤ nav_history.length →
        nav_history.get? (nav_history.length - 2) = some q →
        0 < q.nav → r.change_pct = (p.nav / q.nav - 1) * 100) ∧
      (∀ q, 2 ≤ nav_history.length →
        nav_history.get? (nav_history.length - 2) = some q →
        ¬ 0 < q.nav → r.change_pct = 0) ∧
      (nav_history.length < 2 → r.change_pct = 0) ∧
      (∀ (a_prices2 a_changes2 : QMap) (portfolio2 : Option (List Holding))
          (fetched2 : List Holding) (now2 : String),
        ∃ r2, calculate_fund_valuation fund_code fund_name a_prices2 a_changes2
            portfolio2 nav_history today now2 fetched2 = some r2 ∧
          r2.change_pct = r.change_pct ∧ r2.current_price = r.current_price ∧
          r2.is_estimated = false) := by
  refine ⟨_, calc_official_eq fund_code fund_name now_time a_prices a_changes
    portfolio0 fetched_portfolio nav_history today p hlast htoday,
    rfl, rfl, rfl, ?_, ?_, ?_, ?_⟩
  · intro q h2 hq hpos
    simp only [official_change, if_pos h2, hq, if_pos hpos]
  · intro q h2 hq hpos
    simp only [official_change, if_pos h2, hq, if_neg hpos]
  · intro hlt
    simp only [official_change, if_neg (by omega : ¬ 2 ≤ nav_history.length)]
  · intro a_prices2 a_changes2 portfolio2 fetched2 now2
    exact ⟨_, calc_official_eq fund_code fund_name now2 a_prices2 a_changes2
      portfolio2 fetched2 nav_history today p hlast htoday, rfl, rfl, rfl⟩

/-- Witness for c2_official_nav_published: lastNav 2.000 over priorNav 1.96
reports change 100/49 (about 2.0408 percent) with is_estimated false, even
with live deltas and holdings supplied. -/
theorem c2_official_nav_published_witness :
    (calculate_fund_valuation "F" "基" [] [("600519", 5)]
        (some [{ code := "600519", name := "甲", ratio := 50 }])
        [{ date := 0, dateStr := "2024-05-09", nav := 49/25 },
         { date := 1, dateStr := "2024-05-10", nav := 2 }] 1 "15:00:00" []).map
      (fun r => (r.current_price, r.change_pct, r.is_estimated)) =
    some (2, 100/49, false) := by
  obtain ⟨r, hr, hp, he, _, hq, _, _, _⟩ := c2_official_nav_published "F" "基" "15:00:00"
    [] [("600519", 5)] (some [{ code := "600519", name := "甲", ratio := 50 }]) []
    [{ date := 0, dateStr := "2024-05-09", nav := 49/25 },
     { date := 1, dateStr := "2024-05-10", nav := 2 }] 1
    { date := 1, dateStr := "2024-05-10", nav := 2 } rfl rfl
  have hcp := hq { date := 0, dateStr := "2024-05-09", nav := 49/25 }
    (by norm_num) rfl (by norm_num)
  rw [hr]
  simp only [Option.map_some', hp, he, hcp]
  norm_num

/-- C3 counterexample: in the official-NAV-published branch the returned price
is the NAV itself while the change is the day-over-day change, so
currentPriceEstimate differs from lastNav * (1 + changePctEstimate/100):
with lastNav 2 over priorNav 1 the price is 2 but the formula gives 4. -/
theorem c3_price_invariant_counterexample :
    (calculate_fund_valuation "F" "基" [] [] none
        [{ date := 0, dateStr := "2024-05-09", nav := 1 },
         { date := 1, dateStr := "2024-05-10", nav := 2 }] 1 "15:00:00" []).map
      (fun r => (r.current_price, r.change_pct, r.last_nav)) =
      some (2, 100, some 2) ∧
    (2 : ℚ) ≠ 2 * (1 + 100 / 100) := by
  constructor
  · rw [calc_official_eq "F" "基" "15:00:00" [] [] none []
      [{ date := 0, dateStr := "2024-05-09", nav := 1 },
       { date := 1, dateStr := "2024-05-10", nav := 2 }] 1
      { date := 1, dateStr := "2024-05-10", nav := 2 } rfl rfl]
    simp only [Option.map_some', official_change]
    norm_num
  · norm_num

/-- C3 amended: the price/change consistency invariant
currentPriceEstimate = lastNav * (1 + changePctEstimate/100) holds for every
non-null result whose last NAV date differs from today (the intraday
branches); in the official-NAV-published branch the price is the NAV itself
and the invariant holds only when the official change is 0. -/
theorem c3_price_invariant_amended
    (fund_code fund_name now_time : String) (a_prices a_changes : QMap)
    (portfolio0 : Option (List Holding)) (fetched_portfolio : List Holding)
    (nav_history : List NavPoint) (today : Nat) (p : NavPoint) (r : ValuationResult)
    (hlast : nav_history.getLast? = some p)
    (hne : p.date ≠ today)
    (hres : calculate_fund_valuation fund_code fund_name a_prices a_changes portfolio0
        nav_history today now_time fetched_portfolio = some r) :
    r.current_price = p.nav * (1 + r.change_pct / 100) := by
  by_cases hlive : a_changes = []
  · subst hlive
    rw [calc_no_live_eq fund_code fund_name now_time a_prices portfolio0
      fetched_portfolio nav_history today p hlast hne] at hres
    injection hres with h
    subst h
    norm_num
  · by_cases hempty : portfolio0.getD fetched_portfolio = []
    · rw [calc_no_holdings_eq fund_code fund_name now_time a_prices a_changes
        portfolio0 fetched_portfolio nav_history today p hlast hne hlive hempty] at hres
      injection hres with h
      subst h
      norm_num
    · rw [calc_estimate_eq fund_code fund_name now_time a_prices a_changes
        portfolio0 fetched_portfolio nav_history today p hlast hne hlive hempty] at hres
      injection hres with h
      subst h
      rfl

/-- Witness for c3_price_invariant_amended at a concrete intraday estimation
input. -/
theorem c3_price_invariant_amended_witness :
    (calculate_fund_valuation "F" "基" [] [("600519", 4)]
        (some [{ code := "600519", name := "甲", ratio := 25 }])
        [{ date := 0, dateStr := "2024-05-09", nav := 2 }] 1 "10:00:00" []).map
      (fun r => r.current_price) = some (101/50) := by
  have hres := calc_estimate_eq "F" "基" "10:00:00" [] [("600519", 4)]
    (some [{ code := "600519", name := "甲", ratio := 25 }]) []
    [{ date := 0, dateStr := "2024-05-09", nav := 2 }] 1
    { date := 0, dateStr := "2024-05-09", nav := 2 }
    rfl (by decide) (by simp) (by simp)
  have hinv := c3_price_invariant_amended "F" "基" "10:00:00" [] [("600519", 4)]
    (some [{ code := "600519", name := "甲", ratio := 25 }]) []
    [{ date := 0, dateStr := "2024-05-09", nav := 2 }] 1
    { date := 0, dateStr := "2024-05-09", nav := 2 } _
    rfl (by decide) hres
  rw [hres]
  simp only [Option.map_some', Option.some.injEq]
  refine Eq.trans hinv ?_
  have h1 : resolved_change [("600519", 4)]
      { code := "600519", name := "甲", ratio := 25 } = 4 := by
    have hn : normalize_stock_code "600519" = "600519" := by decide
    simp [resolved_change, lookupQ, hn, List.lookup]
  simp only [Option.getD, List.map_cons, List.map_nil, List.sum_cons, List.sum_nil, h1]
  norm_num

/-- C5 counterexample: with an empty holdings snapshot but the official NAV
for today already published, the estimator reports the official day-over-day
change (here 100 percent), not 0 as the claim requires. -/
theorem c5_empty_holdings_counterexample :
    (calculate_fund_valuation "F" "基" [] [] (some ([] : List Holding))
        [{ date := 0, dateStr := "2024-05-09", nav := 1 },
         { date := 1, dateStr := "2024-05-10", nav := 2 }] 1 "15:00:00" []).map
      (fun r => r.change_pct) = some 100 ∧ (100 : ℚ) ≠ 0 := by
  constructor
  · rw [calc_official_eq "F" "基" "15:00:00" [] [] (some ([] : List Holding)) []
      [{ date := 0, dateStr := "2024-05-09", nav := 1 },
       { date := 1, dateStr := "2024-05-10", nav := 2 }] 1
      { date := 1, dateStr := "2024-05-10", nav := 2 } rfl rfl]
    simp only [Option.map_some', official_change]
    norm_num
  · norm_num

/-- C5 amended: for a fund with non-empty NAV history, an empty holdings
snapshot, and a last NAV date that is not the current trading day, the
estimator returns a non-null result carrying the last NAV as price, change 0
and is_estimated false (whether or not live data is present). -/
theorem c5_empty_holdings_degrades_amended
    (fund_code fund_name now_time : String) (a_prices a_changes : QMap)
    (portfolio0 : Option (List Holding)) (fetched_portfolio : List Holding)
    (nav_history : List NavPoint) (today : Nat) (p : NavPoint)
    (hlast : nav_history.getLast? = some p)
    (hne : p.date ≠ today)
    (hempty : portfolio0.getD fetched_portfolio = []) :
    ∃ r, calculate_fund_valuation fund_code fund_name a_prices a_changes portfolio0
        nav_history today now_time fetched_portfolio = some r ∧
      r.current_price = p.nav ∧ r.change_pct = 0 ∧ r.is_estimated = false := by
  by_cases hlive : a_changes = []
  · subst hlive
    exact ⟨_, calc_no_live_eq fund_code fund_name now_time a_prices portfolio0
      fetched_portfolio nav_history today p hlast hne, rfl, rfl, rfl⟩
  · exact ⟨_, calc_no_holdings_eq fund_code fund_name now_time a_prices a_changes
      portfolio0 fetched_portfolio nav_history today p hlast hne hlive hempty,
      rfl, rfl, rfl⟩

/-- Witness for c5_empty_holdings_degrades_amended: intraday, live data
present, empty snapshot. -/
theorem c5_empty_holdings_degrades_amended_witness :
    (calculate_fund_valuation "F" "基" [] [("600519", 3)] (some ([] : List Holding))
        [{ date := 0, dateStr := "2024-05-09", nav := 1 }] 1 "10:00:00" []).map
      (fun r => (r.current_price, r.change_pct, r.is_estimated)) =
      some (1, 0, false) := by
  obtain ⟨r, hr, h1, h2, h3⟩ := c5_empty_holdings_degrades_amended "F" "基" "10:00:00"
    [] [("600519", 3)] (some ([] : List Holding)) []
    [{ date := 0, dateStr := "2024-05-09", nav := 1 }] 1
    { date := 0, dateStr := "2024-05-09", nav := 1 } rfl (by decide) rfl
  rw [hr]
  simp only [Option.map_some', h1, h2, h3]

/-- The official branch's detail builder agrees with the estimation branch's
per-holding record when the empty identifier is not a key of the map. -/
theorem build_portfolio_details_eq (items : List Holding) (m : QMap)
    (hkey : lookupQ m "" = none) :
    build_portfolio_details items m = items.map (detail_of m) := by
  unfold build_portfolio_details detail_of resolved_change
  apply List.map_congr_left
  intro st _
  by_cases h : normalize_stock_code st.code = ""
  · simp [h, hkey]
  · simp [h]

/-- C9 counterexample: in the intraday branch with an empty live change map
the returned holdingsDetail is empty even though the supplied holdings
snapshot has one entry. -/
theorem c9_details_counterexample :
    (calculate_fund_valuation "F" "基" [] []
        (some [{ code := "600519", name := "甲", ratio := 50 }])
        [{ date := 0, dateStr := "2024-05-09", nav := 1 }] 1 "10:00:00" []).map
      (fun r => r.portfolio.length) = some 0 ∧
    ([{ code := "600519", name := "甲", ratio := 50 }] : List Holding).length = 1 := by
  constructor
  · rw [calc_no_live_eq "F" "基" "10:00:00" []
      (some [{ code := "600519", name := "甲", ratio := 50 }]) []
      [{ date := 0, dateStr := "2024-05-09", nav := 1 }] 1
      { date := 0, dateStr := "2024-05-09", nav := 1 } rfl (by decide)]
    simp
  · simp

/-- C9 amended: provided the empty identifier is not a key of the live change
map, every non-null result built from a supplied snapshot carries one detail
entry per holding (display name, resolved live change with 0 for unmatched,
disclosed weight) in every branch except the intraday branch with an empty
live change map, where the detail list is empty regardless of the
snapshot. -/
theorem c9_details_amended
    (fund_code fund_name now_time : String) (a_prices a_changes : QMap)
    (items fetched_portfolio : List Holding)
    (nav_history : List NavPoint) (today : Nat) (p : NavPoint) (r : ValuationResult)
    (hlast : nav_history.getLast? = some p)
    (hkey : lookupQ a_changes "" = none)
    (hres : calculate_fund_valuation fund_code fund_name a_prices a_changes
        (some items) nav_history today now_time fetched_portfolio = some r) :
    (p.date = today ∨ a_changes ≠ [] → r.portfolio = items.map (detail_of a_changes)) ∧
    (p.date ≠ today ∧ a_changes = [] → r.portfolio = []) := by
  by_cases hd : p.date = today
  · rw [calc_official_eq fund_code fund_name now_time a_prices a_changes
      (some items) fetched_portfolio nav_history today p hlast hd] at hres
    injection hres with h
    subst h
    constructor
    · intro _
      show (if items ≠ [] then build_portfolio_details items a_changes else []) = _
      by_cases hi : items = []
      · subst hi; simp
      · rw [if_pos hi, build_portfolio_details_eq items a_changes hkey]
    · rintro ⟨hne, _⟩
      exact absurd hd hne
  · by_cases hlive : a_changes = []
    · subst hlive
      rw [calc_no_live_eq fund_code fund_name now_time a_prices (some items)
        fetched_portfolio nav_history today p hlast hd] at hres
      injection hres with h
      subst h
      refine ⟨fun hor => ?_, fun _ => rfl⟩
      rcases hor with h | h
      · exact absurd h hd
      · exact absurd rfl h
    · by_cases hempty : (some items : Option (List Holding)).getD fetched_portfolio = []
      · have hitems : items = [] := hempty
        rw [calc_no_holdings_eq fund_code fund_name now_time a_prices a_changes
          (some items) fetched_portfolio nav_history today p hlast hd hlive hempty] at hres
        injection hres with h
        subst h
        refine ⟨fun _ => ?_, fun hand => absurd hand.2 hlive⟩
        simp [hitems]
      · rw [calc_estimate_eq fund_code fund_name now_time a_prices a_changes
          (some items) fetched_portfolio nav_history today p hlast hd hlive hempty] at hres
        injection hres with h
        subst h
        exact ⟨fun _ => rfl, fun hand => absurd hand.2 hlive⟩

/-- Witness for c9_details_amended: intraday estimation with one matched
holding yields exactly its name, live change and weight. -/
theorem c9_details_amended_witness :
    (calculate_fund_valuation "F" "基" [] [("600519", 3)]
        (some [{ code := "600519", name := "甲", ratio := 50 }])
        [{ date := 0, dateStr := "2024-05-09", nav := 1 }] 1 "10:00:00" []).map
      (fun r => r.portfolio) =
      some [{ name := "甲", change := 3, ratio := 50 }] := by
  have hres := calc_estimate_eq "F" "基" "10:00:00" [] [("600519", 3)]
    (some [{ code := "600519", name := "甲", ratio := 50 }]) []
    [{ date := 0, dateStr := "2024-05-09", nav := 1 }] 1
    { date := 0, dateStr := "2024-05-09", nav := 1 }
    rfl (by decide) (by simp) (by simp)
  have h9 := (c9_details_amended "F" "基" "10:00:00" [] [("600519", 3)]
    [{ code := "600519", name := "甲", ratio := 50 }] []
    [{ date := 0, dateStr := "2024-05-09", nav := 1 }] 1
    { date := 0, dateStr := "2024-05-09", nav := 1 } _
    rfl rfl hres).1 (Or.inr (by simp))
  rw [hres]
  simp only [Option.map_some', Option.some.injEq]
  refine Eq.trans h9 ?_
  have hn : normalize_stock_code "600519" = "600519" := by decide
  simp [detail_of, resolved_change, lookupQ, hn, List.lookup]

/-! ## Holdings snapshot selector -/

/-- Maximal runs of consecutive digit characters (re.findall of one-or-more
digits). -/
def digit_runs (l : List Char) : List (List Char) :=
  let step := fun (acc : List (List Char) × List Char) (c : Char) =>
    if c.isDigit then (acc.1, acc.2 ++ [c])
    else if acc.2 = [] then acc else (acc.1 ++ [acc.2], [])
  let fin := l.foldl step ([], [])
  if fin.2 = [] then fin.1 else fin.1 ++ [fin.2]

/-- Value of a digit run as a natural number. -/
def digitsToNat (l : List Char) : Nat :=
  l.foldl (fun n c => 10 * n + (c.toNat - 48)) 0

/-- First occurrence of the pattern q1..q4 in a character list (re.search of
"q" followed by 1-4). -/
def find_q_pattern : List Char → Option Nat
  | [] => none
  | [_] => none
  | a :: b :: rest =>
    if a = 'q' ∧ '1' ≤ b ∧ b ≤ '4' then some (b.toNat - 48)
    else find_q_pattern (b :: rest)

/-- Embedding of quarter_key (src/app.py lines 430-443): first embedded
integer is the year; the quarter is the second embedded integer, else a
q1..q4 pattern in the lowercased label, else -1; key (-1, -1) when the label
embeds no integer. -/
def quarter_key (text : String) : ℤ × ℤ :=
  let nums := (digit_runs text.data).map (fun r => (digitsToNat r : ℤ))
  match nums with
  | [] => (-1, -1)
  | year :: rest =>
    let q : ℤ :=
      match rest with
      | q2 :: _ => q2
      | [] =>
        match find_q_pattern (lowerChars text.data) with
        | some n => (n : ℤ)
        | none => -1
    (year, q)

/-- Python's lexicographic less-than on the (year, quarter) key pairs, as the
Boolean test max uses. -/
def qkey_lt (a b : ℤ × ℤ) : Bool :=
  decide (a.1 < b.1 ∨ (a.1 = b.1 ∧ a.2 < b.2))

/-- Lexicographic less-or-equal on key pairs (specification side). -/
def qkey_le (a b : ℤ × ℤ) : Prop :=
  a.1 < b.1 ∨ (a.1 = b.1 ∧ a.2 ≤ b.2)

/-- One step of the order-preserving deduplication. -/
def uniq_step (acc : List String) (x : String) : List String :=
  if x ∈ acc then acc else acc ++ [x]

/-- Model of pandas Series.unique: distinct values in order of first
appearance. -/
def uniqueFirst (l : List String) : List String := l.foldl uniq_step []

/-- One step of Python max over labels keyed by quarter_key: replace the
running maximum only on a strictly greater key. -/
def max_step (best : Option String) (x : String) : Option String :=
  match best with
  | none => some x
  | some b => if qkey_lt (quarter_key b) (quarter_key x) then some x else some b

/-- Model of Python max(labels, key=quarter_key): first label attaining the
maximum key (ties keep the earlier label). -/
def max_by_quarter_key (labels : List String) : Option String :=
  labels.foldl max_step none

/-- Modelled numeric coercion (pandas to_numeric with coerce) for plain
decimal literals: digits with an optional fraction part; anything else
coerces to none (NaN). -/
def parseUnsigned (l : List Char) : Option ℚ :=
  let intPart := l.takeWhile Char.isDigit
  let rest := l.dropWhile Char.isDigit
  match rest with
  | [] => if intPart = [] then none else some (digitsToNat intPart : ℚ)
  | '.' :: frac =>
    if frac.all Char.isDigit ∧ (intPart ≠ [] ∨ frac ≠ []) then
      some ((digitsToNat intPart : ℚ) + (digitsToNat frac : ℚ) / (10 ^ frac.length))
    else none
  | _ => none

/-- Signed decimal literal parser on top of parseUnsigned. -/
def parseDecimal (l : List Char) : Option ℚ :=
  match l with
  | '-' :: rest => (parseUnsigned rest).map (fun x => -x)
  | _ => parseUnsigned l

/-- Weight parsing of the selector (src/app.py lines 453-454): remove percent
signs, coerce to a number, non-numeric becomes 0.0. -/
def parse_ratio (s : String) : ℚ :=
  (parseDecimal (s.data.filter (fun c => c ≠ '%'))).getD 0

/-- One raw disclosure row after column resolution: quarter label, raw weight
cell, security code cell, display name. -/
structure DisclosureRow where
  quarter : String
  ratio : String
  code : String
  name : String
deriving DecidableEq

/-- Per-row holding construction of get_fund_portfolio (src/app.py lines
458-470): last 6 digits (or all digits when fewer), with HK reclassification
to the zero-padded last 5 digits. -/
def holding_of_row (r : DisclosureRow) : Holding :=
  let digits := pyDigits r.code.data
  let code0 := if 6 ≤ digits.length then String.mk (lastN 6 digits) else String.mk digits
  let code_norm :=
    if is_hk_stock r.code r.name then
      (if digits ≠ [] then String.mk (zfillChars 5 (lastN 5 digits)) else code0)
    else code0
  { code := code_norm, name := r.name, ratio := parse_ratio r.ratio }

/-- Stable insertion into a list kept in descending key order. -/
def insertDescBy {α : Type} (f : α → ℚ) (x : α) : List α → List α
  | [] => [x]
  | y :: ys => if f y < f x then x :: y :: ys else y :: insertDescBy f x ys

/-- Model of the pandas descending sort by parsed weight (a stable descending
sort; the source only relies on the descending order). -/
def sortDescBy {α : Type} (f : α → ℚ) : List α → List α
  | [] => []
  | x :: xs => insertDescBy f x (sortDescBy f xs)

/-- Embedding of the quarter-selection core of get_fund_portfolio
(src/app.py lines 445-471), on rows with resolved columns. -/
def select_latest_holdings (rows : List DisclosureRow) : List Holding :=
  let quarters := rows.map (fun r => r.quarter)
  if quarters = [] then []
  else
    match max_by_quarter_key (uniqueFirst quarters) with
    | none => []
    | some latest_quarter =>
      let df_latest := rows.filter (fun r => r.quarter = latest_quarter)
      if df_latest = [] then []
      else
        ((sortDescBy (fun r => parse_ratio r.ratio) df_latest).take 10).map holding_of_row

/-! Lemmas about the key order, deduplication, maximum and sorting. -/

theorem qkey_le_refl (a : ℤ × ℤ) : qkey_le a a := Or.inr ⟨rfl, le_refl _⟩

theorem qkey_le_trans {a b c : ℤ × ℤ} (h1 : qkey_le a b) (h2 : qkey_le b c) :
    qkey_le a c := by
  unfold qkey_le at *
  omega

theorem qkey_lt_le {a b : ℤ × ℤ} (h : qkey_lt a b = true) : qkey_le a b := by
  unfold qkey_lt at h
  unfold qkey_le
  rw [decide_eq_true_eq] at h
  omega

theorem qkey_not_lt {a b : ℤ × ℤ} (h : qkey_lt a b = false) : qkey_le b a := by
  unfold qkey_lt at h
  unfold qkey_le
  rw [decide_eq_false_iff_not] at h
  omega

theorem mem_foldl_uniq (l : List String) :
    ∀ (acc : List String) (a : String),
      a ∈ l.foldl uniq_step acc ↔ a ∈ acc ∨ a ∈ l := by
  induction l with
  | nil => intro acc a; simp
  | cons x rest ih =>
    intro acc a
    simp only [List.foldl_cons]
    rw [ih]
    unfold uniq_step
    by_cases hx : x ∈ acc
    · rw [if_pos hx]
      constructor
      · rintro (h | h)
        · exact Or.inl h
        · exact Or.inr (List.mem_cons_of_mem x h)
      · rintro (h | h)
        · exact Or.inl h
        · rcases List.mem_cons.mp h with h | h
          · exact Or.inl (h ▸ hx)
          · exact Or.inr h
    · rw [if_neg hx]
      simp only [List.mem_append, List.mem_singleton, List.mem_cons]
      tauto

theorem mem_uniqueFirst (l : List String) (a : String) :
    a ∈ uniqueFirst l ↔ a ∈ l := by
  unfold uniqueFirst
  rw [mem_foldl_uniq]
  simp

theorem max_fold_go (labels : List String) :
    ∀ b0 : String, ∃ L, labels.foldl max_step (some b0) = some L ∧
      (L = b0 ∨ L ∈ labels) ∧ qkey_le (quarter_key b0) (quarter_key L) ∧
      ∀ l ∈ labels, qkey_le (quarter_key l) (quarter_key L) := by
  induction labels with
  | nil =>
    intro b0
    exact ⟨b0, rfl, Or.inl rfl, qkey_le_refl _, by simp⟩
  | cons x rest ih =>
    intro b0
    simp only [List.foldl_cons]
    cases hlt : qkey_lt (quarter_key b0) (quarter_key x) with
    | true =>
      rw [show max_step (some b0) x = some x by simp [max_step, hlt]]
      obtain ⟨L, hL, hmem, hle, hall⟩ := ih x
      refine ⟨L, hL, ?_, qkey_le_trans (qkey_lt_le hlt) hle, ?_⟩
      · rcases hmem with h | h
        · exact Or.inr (h ▸ List.mem_cons_self x rest)
        · exact Or.inr (List.mem_cons_of_mem x h)
      · intro l hl
        rcases List.mem_cons.mp hl with h | h
        · exact h ▸ hle
        · exact hall l h
    | false =>
      rw [show max_step (some b0) x = some b0 by simp [max_step, hlt]]
      obtain ⟨L, hL, hmem, hle, hall⟩ := ih b0
      refine ⟨L, hL, ?_, hle, ?_⟩
      · rcases hmem with h | h
        · exact Or.inl h
        · exact Or.inr (List.mem_cons_of_mem x h)
      · intro l hl
        rcases List.mem_cons.mp hl with h | h
        · exact h ▸ qkey_le_trans (qkey_not_lt hlt) hle
        · exact hall l h

theorem max_by_quarter_key_spec (labels : List String) (L : String)
    (h : max_by_quarter_key labels = some L) :
    L ∈ labels ∧ ∀ l ∈ labels, qkey_le (quarter_key l) (quarter_key L) := by
  cases labels with
  | nil => simp [max_by_quarter_key] at h
  | cons x rest =>
    unfold max_by_quarter_key at h
    rw [List.foldl_cons, show max_step none x = some x from rfl] at h
    obtain ⟨L', hL', hmem, hle, hall⟩ := max_fold_go rest x
    rw [hL'] at h
    injection h with h
    subst h
    refine ⟨?_, ?_⟩
    · rcases hmem with h | h
      · rw [h]; exact List.mem_cons_self x rest
      · exact List.mem_cons_of_mem x h
    · intro l hl
      rcases List.mem_cons.mp hl with h | h
      · exact h ▸ hle
      · exact hall l h

theorem mem_insertDescBy {α : Type} (f : α → ℚ) (x a : α) (l : List α) :
    a ∈ insertDescBy f x l ↔ a = x ∨ a ∈ l := by
  induction l with
  | nil => simp [insertDescBy]
  | cons y ys ih =>
    unfold insertDescBy
    by_cases h : f y < f x
    · rw [if_pos h]
      simp [List.mem_cons]
    · rw [if_neg h]
      simp only [List.mem_cons, ih]
      tauto

theorem sorted_insertDescBy {α : Type} (f : α → ℚ) (x : α) (l : List α)
    (h : List.Sorted (fun a b => f b ≤ f a) l) :
    List.Sorted (fun a b => f b ≤ f a) (insertDescBy f x l) := by
  induction l with
  | nil => simp [insertDescBy]
  | cons y ys ih =>
    rw [List.sorted_cons] at h
    obtain ⟨hy, hys⟩ := h
    unfold insertDescBy
    by_cases hlt : f y < f x
    · rw [if_pos hlt]
      rw [List.sorted_cons]
      refine ⟨?_, List.sorted_cons.mpr ⟨hy, hys⟩⟩
      intro b hb
      rcases List.mem_cons.mp hb with h | h
      · exact h ▸ le_of_lt hlt
      · exact le_trans (hy b h) (le_of_lt hlt)
    · rw [if_neg hlt]
      rw [List.sorted_cons]
      refine ⟨?_, ih hys⟩
      intro b hb
      rcases (mem_insertDescBy f x b ys).mp hb with h | h
      · exact h ▸ le_of_not_lt hlt
      · exact hy b h

theorem sorted_sortDescBy {α : Type} (f : α → ℚ) (l : List α) :
    List.Sorted (fun a b => f b ≤ f a) (sortDescBy f l) := by
  induction l with
  | nil => simp [sortDescBy]
  | cons x xs ih => exact sorted_insertDescBy f x (sortDescBy f xs) ih

theorem mem_sortDescBy {α : Type} (f : α → ℚ) (a : α) (l : List α) :
    a ∈ sortDescBy f l ↔ a ∈ l := by
  induction l with
  | nil => simp [sortDescBy]
  | cons x xs ih =>
    unfold sortDescBy
    rw [mem_insertDescBy, ih, List.mem_cons]

example : quarter_key "2023年四季度报告" = (2023, -1) := by decide
example : quarter_key "2024年一季度报告" = (2024, -1) := by decide
example : quarter_key "2024Q1" = (2024, 1) := by decide
example : quarter_key "2024-1" = (2024, 1) := by decide
example : quarter_key "报告" = (-1, -1) := by decide
example : max_by_quarter_key ["2023年四季度报告", "2024年一季度报告"] =
    some "2024年一季度报告" := by decide

/-- The quarter ordering key as the claim words it: the first embedded
integer is the year, the quarter is the second embedded integer or else a
q1..q4 pattern, and the key is (-1, -1) when the label embeds no integer. -/
def quarter_key_claim (text : String) : ℤ × ℤ :=
  match (digit_runs text.data).map (fun r => (digitsToNat r : ℤ)) with
  | [] => (-1, -1)
  | [y] =>
    match find_q_pattern (lowerChars text.data) with
    | some n => (y, (n : ℤ))
    | none => (y, -1)
  | y :: q :: _ => (y, q)

theorem quarter_key_eq_claim (s : String) : quarter_key s = quarter_key_claim s := by
  unfold quarter_key quarter_key_claim
  cases h : (digit_runs s.data).map (fun r => (digitsToNat r : ℤ)) with
  | nil => simp only [h]
  | cons y rest =>
    cases rest with
    | nil =>
      cases hq : find_q_pattern (lowerChars s.data) <;> simp only [h, hq]
    | cons q t => simp only [h]

/-- C4 counterexample: two distinct labels with the same (year, quarter) key;
both attain the maximum key, but only the first label's row is selected, so
the selector does not select every row whose label attains the maximum. -/
theorem c4_tie_counterexample :
    quarter_key "2024-1" = quarter_key "2024q1" ∧
    (select_latest_holdings
        [{ quarter := "2024-1", ratio := "5", code := "600519", name := "甲" },
         { quarter := "2024q1", ratio := "3", code := "000001", name := "乙" }]).map
      (fun h => h.name) = ["甲"] := by
  constructor
  · decide
  · decide

/-- C4 amended: the quarter key is exactly the claim's key; for every
non-empty row set the selector picks the first-appearing label attaining the
maximum key and returns exactly that label's rows, parsed, ordered descending
by weight and truncated to at most 10 entries (when distinct labels tie on
the key, only the first such label's rows are selected). -/
theorem c4_latest_quarter_selection_amended :
    (∀ s : String, quarter_key s = quarter_key_claim s) ∧
    (∀ rows : List DisclosureRow, rows ≠ [] →
      ∃ L, max_by_quarter_key (uniqueFirst (rows.map (fun r => r.quarter))) = some L ∧
        (∃ r ∈ rows, r.quarter = L) ∧
        (∀ r ∈ rows, qkey_le (quarter_key r.quarter) (quarter_key L)) ∧
        select_latest_holdings rows =
          ((sortDescBy (fun r => parse_ratio r.ratio)
              (rows.filter (fun r => r.quarter = L))).take 10).map holding_of_row ∧
        (select_latest_holdings rows).length ≤ 10 ∧
        List.Sorted (fun a b => b.ratio ≤ a.ratio) (select_latest_holdings rows)) := by
  constructor
  · exact quarter_key_eq_claim
  · intro rows hrows
    have hq : ¬ rows.map (fun r => r.quarter) = [] := by
      simp only [List.map_eq_nil_iff]
      exact hrows
    obtain ⟨r0, hr0⟩ := List.exists_mem_of_ne_nil rows hrows
    have hqu : uniqueFirst (rows.map (fun r => r.quarter)) ≠ [] := by
      intro hemp
      have hmem : r0.quarter ∈ uniqueFirst (rows.map (fun r => r.quarter)) :=
        (mem_uniqueFirst _ _).mpr (List.mem_map_of_mem _ hr0)
      rw [hemp] at hmem
      simp at hmem
    obtain ⟨L, hL⟩ : ∃ L, max_by_quarter_key
        (uniqueFirst (rows.map (fun r => r.quarter))) = some L := by
      cases hu : uniqueFirst (rows.map (fun r => r.quarter)) with
      | nil => exact absurd hu hqu
      | cons x t =>
        obtain ⟨L, hL, _, _, _⟩ := max_fold_go t x
        refine ⟨L, ?_⟩
        unfold max_by_quarter_key
        rw [List.foldl_cons]
        exact hL
    obtain ⟨hmemL, hmax⟩ := max_by_quarter_key_spec _ L hL
    have hLlabel : L ∈ rows.map (fun r => r.quarter) := (mem_uniqueFirst _ _).mp hmemL
    obtain ⟨r1, hr1, hr1q⟩ := List.mem_map.mp hLlabel
    have hmax' : ∀ r ∈ rows, qkey_le (quarter_key r.quarter) (quarter_key L) :=
      fun r hr => hmax r.quarter ((mem_uniqueFirst _ _).mpr (List.mem_map_of_mem _ hr))
    have hfilter : rows.filter (fun r => r.quarter = L) ≠ [] := by
      intro hemp
      have hm : r1 ∈ rows.filter (fun r => r.quarter = L) :=
        List.mem_filter.mpr ⟨hr1, by simp [hr1q]⟩
      rw [hemp] at hm
      simp at hm
    have hsel : select_latest_holdings rows =
        ((sortDescBy (fun r => parse_ratio r.ratio)
            (rows.filter (fun r => r.quarter = L))).take 10).map holding_of_row := by
      unfold select_latest_holdings
      rw [if_neg hq, hL]
      simp only
      rw [if_neg hfilter]
    refine ⟨L, hL, ⟨r1, hr1, hr1q⟩, hmax', hsel, ?_, ?_⟩
    · rw [hsel, List.length_map]
      exact le_trans (List.length_take_le 10 _) (le_refl 10)
    · rw [hsel]
      have hsorted := sorted_sortDescBy (fun r => parse_ratio r.ratio)
        (rows.filter (fun r => r.quarter = L))
      have htake := List.Pairwise.sublist (List.take_sublist 10 _) hsorted
      exact List.Pairwise.map holding_of_row (fun a b hab => hab) htake

/-- Witness for c4_latest_quarter_selection_amended: the claim's concrete
example, where the 2024 Q1 rows win over the 2023 Q4 rows. -/
theorem c4_latest_quarter_selection_amended_witness :
    ([{ quarter := "2023年四季度报告", ratio := "5", code := "600519", name := "甲" },
      { quarter := "2024年一季度报告", ratio := "3", code := "000001", name := "乙" }] :
      List DisclosureRow) ≠ [] ∧
    select_latest_holdings
        [{ quarter := "2023年四季度报告", ratio := "5", code := "600519", name := "甲" },
         { quarter := "2024年一季度报告", ratio := "3", code := "000001", name := "乙" }] =
      [{ code := "000001", name := "乙", ratio := 3 }] := by
  refine ⟨by simp, ?_⟩
  obtain ⟨L, hL, _, _, hsel, _, _⟩ := c4_latest_quarter_selection_amended.2
    [{ quarter := "2023年四季度报告", ratio := "5", code := "600519", name := "甲" },
     { quarter := "2024年一季度报告", ratio := "3", code := "000001", name := "乙" }]
    (by simp)
  have hmaxval : max_by_quarter_key (uniqueFirst
      (([{ quarter := "2023年四季度报告", ratio := "5", code := "600519", name := "甲" },
         { quarter := "2024年一季度报告", ratio := "3", code := "000001", name := "乙" }] :
        List DisclosureRow).map (fun r => r.quarter))) = some "2024年一季度报告" := by
    decide
  rw [hmaxval] at hL
  have hLval : L = "2024年一季度报告" := (Option.some.inj hL).symm
  rw [hLval] at hsel
  rw [hsel]
  have hf : ([{ quarter := "2023年四季度报告", ratio := "5", code := "600519", name := "甲" },
      { quarter := "2024年一季度报告", ratio := "3", code := "000001", name := "乙" }] :
      List DisclosureRow).filter (fun r => r.quarter = "2024年一季度报告") =
      [{ quarter := "2024年一季度报告", ratio := "3", code := "000001", name := "乙" }] := by
    decide
  rw [hf]
  show [holding_of_row
      { quarter := "2024年一季度报告", ratio := "3", code := "000001", name := "乙" }] = _
  have hratio : parse_ratio "3" = 3 := by
    have h3 : digitsToNat ['3'] = 3 := by decide
    simp [parse_ratio, parseDecimal, parseUnsigned, h3]
  have hrow : holding_of_row
      { quarter := "2024年一季度报告", ratio := "3", code := "000001", name := "乙" } =
      { code := "000001", name := "乙", ratio := 3 } := by
    simp only [holding_of_row]
    rw [Holding.mk.injEq]
    exact ⟨by decide, rfl, hratio⟩
  rw [hrow]

/-! ## Batch quote fetcher -/

/-- Python str.split with a one-character separator. -/
def splitOnChar (sep : Char) : List Char → List (List Char)
  | [] => [[]]
  | c :: rest =>
    if c = sep then [] :: splitOnChar sep rest
    else
      match splitOnChar sep rest with
      | [] => [[c]]
      | h :: t => (c :: h) :: t

/-- Python str.split with a two-character separator (used for the v_
marker), splitting at the leftmost non-overlapping occurrences. -/
def splitOn2 (a b : Char) : List Char → List (List Char)
  | [] => [[]]
  | [c] => [[c]]
  | c :: d :: rest =>
    if c = a ∧ d = b then [] :: splitOn2 a b rest
    else
      match splitOn2 a b (d :: rest) with
      | [] => [[c]]
      | h :: t => (c :: h) :: t

/-- Rejoin the parts produced by a one-character split (used to model
str.split("=", 1): head is the left part, the rejoined tail the right). -/
def joinChar (sep : Char) : List (List Char) → List Char
  | [] => []
  | [x] => x
  | x :: y :: rest => x ++ sep :: joinChar sep (y :: rest)

/-- Python str.strip of double-quote characters. -/
def stripQuoteChars (l : List Char) : List Char :=
  ((l.dropWhile (fun c => c = '"')).reverse.dropWhile (fun c => c = '"')).reverse

/-- pandas to_numeric with coerce on one tilde field, via the decimal
parser. -/
def toNumericL (l : List Char) : Option ℚ := parseDecimal l

/-- Derivation of the canonical code from a provider key that is not in the
request map (src/app.py lines 377-381). -/
def tencent_fallback (cwp : List Char) : String :=
  if List.isPrefixOf ['h', 'k'] cwp then String.mk (cwp.drop 2)
  else String.mk (lastN 6 cwp)

/-- Embedding of the per-record parsing of the quote response (src/app.py
lines 354-383): guards, key extraction left of the first equals sign, tilde
fields, numeric coercions with the derived percent change, and the map key
resolved through the request map with the fallback derivation. -/
def parse_chunk_line (code_map : List (String × String)) (line : String) :
    Option (String × ℚ × ℚ) :=
  let l := stripChars line.data
  if l = [] then none
  else if ¬ ('=' ∈ l) then none
  else if containsSeq2 'v' '_' l = false then none
  else
    let parts := splitOnChar '=' l
    let left := parts.headD []
    let right := joinChar '=' parts.tail
    let cwp := (splitOn2 'v' '_' left).getLastD []
    let data := stripQuoteChars (stripChars right)
    if data = [] then none
    else
      let fields := splitOnChar '~' data
      if fields.length < 5 then none
      else
        let latest := (toNumericL (fields.getD 3 [])).getD 0
        let prev_close := (toNumericL (fields.getD 4 [])).getD 0
        let change_pct :=
          match (fields.get? 32).bind toNumericL with
          | some c => c
          | none =>
            if 0 < prev_close then (latest - prev_close) / prev_close * 100 else 0
        let code_key :=
          match List.lookup (String.mk cwp) code_map with
          | some c => if c = "" then tencent_fallback cwp else c
          | none => tencent_fallback cwp
        some (code_key, latest, change_pct)

/-- Python dict assignment on the association-list model: replace the value
of an existing key, else append. -/
def dinsert (m : QMap) (k : String) (v : ℚ) : QMap :=
  if m.any (fun kv => kv.1 = k) then
    m.map (fun kv => if kv.1 = k then (k, v) else kv)
  else m ++ [(k, v)]

/-- Processing of one chunk's response text (src/app.py lines 343-385): a
failed request (none) or empty text is skipped, otherwise every
semicolon-separated record updates both maps. -/
def process_response (code_map : List (String × String)) (ms : QMap × QMap)
    (resp : Option String) : QMap × QMap :=
  match resp with
  | none => ms
  | some rawText =>
    let text := stripChars rawText.data
    if text = [] then ms
    else
      (splitOnChar ';' text).foldl (fun ms lc =>
        match parse_chunk_line code_map (String.mk lc) with
        | none => ms
        | some kv => (dinsert ms.1 kv.1 kv.2.1, dinsert ms.2 kv.1 kv.2.2)) ms

/-- The records one response contributes, as a list (used to state
hypotheses about responses). -/
def parsed_records (code_map : List (String × String)) (resp : Option String) :
    List (String × ℚ × ℚ) :=
  match resp with
  | none => []
  | some rawText =>
    let text := stripChars rawText.data
    if text = [] then []
    else (splitOnChar ';' text).filterMap
      (fun lc => parse_chunk_line code_map (String.mk lc))

/-- Embedding of to_tencent_code (src/app.py lines 312-321). -/
def to_tencent_code (code : String) : Option String :=
  if code.length = 5 ∧ code.data.head? = some '0' then
    some (String.mk (['h', 'k'] ++ code.data))
  else if code.data.head? = some '6' then some (String.mk (['s', 'h'] ++ code.data))
  else if code.data.head? = some '0' ∨ code.data.head? = some '3' then
    some (String.mk (['s', 'z'] ++ code.data))
  else if code.data.head? = some '8' ∨ code.data.head? = some '4' ∨
      code.data.head? = some '9' then
    some (String.mk (['b', 'j'] ++ code.data))
  else none

/-- The normalized, truthy, deduplicated request set (src/app.py lines
306-310); the Python set is modelled as a first-occurrence list. -/
def wanted_codes (stock_codes : List String) : List String :=
  uniqueFirst ((stock_codes.map normalize_stock_code).filter (fun c => c ≠ ""))

/-- Routable (provider key, canonical code) pairs (src/app.py lines
323-326); also serves as the code_map dict, whose keys are distinct. -/
def batch_items (stock_codes : List String) : List (String × String) :=
  (wanted_codes stock_codes).filterMap
    (fun c => (to_tencent_code c).map (fun t => (t, c)))

/-- The process-wide last-known-good cache LAST_A_STOCK_CACHE. -/
structure StockCache where
  price_map : QMap
  change_map : QMap

/-- Embedding of get_stock_realtime_price_batch (src/app.py lines 296-399).
The network is an explicit input: one optional response text per chunk of at
most 80 provider keys (none models a request failure).  The refresh of the
last-known-good cache after a successful fetch is a side effect on global
state and does not alter the returned maps, so the embedding returns the
maps only. -/
def get_stock_realtime_price_batch (stock_codes : List String)
    (responses : List (Option String)) (cache : StockCache) : QMap × QMap :=
  if stock_codes = [] then
    if cache.price_map ≠ [] ∧ cache.change_map ≠ [] then
      (cache.price_map, cache.change_map)
    else ([], [])
  else
    let wanted := wanted_codes stock_codes
    let items := batch_items stock_codes
    let tencent_codes := items.map (fun it => it.1)
    if tencent_codes = [] then
      if cache.price_map ≠ [] ∧ cache.change_map ≠ [] then
        (cache.price_map.filter (fun kv => wanted.contains kv.1),
          cache.change_map.filter (fun kv => wanted.contains kv.1))
      else ([], [])
    else
      let numChunks := (tencent_codes.length + 80 - 1) / 80
      let maps := (List.range numChunks).foldl
        (fun ms i => process_response items ms (responses.getD i none)) ([], [])
      if maps.1 ≠ [] ∧ maps.2 ≠ [] then maps
      else if cache.price_map ≠ [] ∧ cache.change_map ≠ [] then
        (cache.price_map.filter (fun kv => wanted.contains kv.1),
          cache.change_map.filter (fun kv => wanted.contains kv.1))
      else ([], [])

example : wanted_codes ["600000"] = ["600000"] := by decide
example : batch_items ["600000"] = [("sh600000", "600000")] := by decide
example : ((get_stock_realtime_price_batch ["600000"]
    [some "v_sz000002=\x220~B~2~3~2\x22"] ⟨[], []⟩).1.map Prod.fst) = ["000002"] := by
  decide
example : ((get_stock_realtime_price_batch ["600000"]
    [some "v_sh600000=\x220~N~2~3~2\x22"] ⟨[], []⟩).1.map Prod.fst) = ["600000"] := by
  decide

/-! Key-containment lemmas for the batch fetcher. -/

theorem foldl_preserve {α β : Type} (P : β → Prop) (f : β → α → β) :
    ∀ (l : List α) (b : β), (∀ b' a, a ∈ l → P b' → P (f b' a)) → P b → P (l.foldl f b) := by
  intro l
  induction l with
  | nil => intro b _ hb; exact hb
  | cons x rest ih =>
    intro b hstep hb
    rw [List.foldl_cons]
    exact ih (f b x) (fun b' a ha => hstep b' a (List.mem_cons_of_mem x ha))
      (hstep b x (List.mem_cons_self x rest) hb)

theorem dinsert_keys {P : String → Prop} {m : QMap} {k : String} {v : ℚ}
    (hm : ∀ kv ∈ m, P kv.1) (hk : P k) : ∀ kv ∈ dinsert m k v, P kv.1 := by
  intro kv hkv
  unfold dinsert at hkv
  split at hkv
  · obtain ⟨kv0, hkv0, hmap⟩ := List.mem_map.mp hkv
    by_cases he : kv0.1 = k
    · rw [if_pos he] at hmap
      rw [← hmap]
      exact hk
    · rw [if_neg he] at hmap
      rw [← hmap]
      exact hm kv0 hkv0
  · rcases List.mem_append.mp hkv with h | h
    · exact hm kv h
    · rw [List.mem_singleton.mp h]
      exact hk

theorem process_response_keys {P : String → Prop}
    (code_map : List (String × String)) (resp : Option String) (ms : QMap × QMap)
    (hrec : ∀ kv ∈ parsed_records code_map resp, P kv.1)
    (hms : (∀ kv ∈ ms.1, P kv.1) ∧ (∀ kv ∈ ms.2, P kv.1)) :
    (∀ kv ∈ (process_response code_map ms resp).1, P kv.1) ∧
    (∀ kv ∈ (process_response code_map ms resp).2, P kv.1) := by
  match resp with
  | none => exact hms
  | some rawText =>
    unfold process_response
    unfold parsed_records at hrec
    simp only at hrec ⊢
    by_cases htext : stripChars rawText.data = []
    · rw [if_pos htext] at hrec ⊢
      exact hms
    · rw [if_neg htext] at hrec ⊢
      have := foldl_preserve
        (fun ms : QMap × QMap => (∀ kv ∈ ms.1, P kv.1) ∧ (∀ kv ∈ ms.2, P kv.1))
        (fun ms lc =>
          match parse_chunk_line code_map (String.mk lc) with
          | none => ms
          | some kv => (dinsert ms.1 kv.1 kv.2.1, dinsert ms.2 kv.1 kv.2.2))
        (splitOnChar ';' (stripChars rawText.data)) ms ?_ hms
      · exact this
      · intro ms' lc hlc hms'
        cases hp : parse_chunk_line code_map (String.mk lc) with
        | none => simpa [hp] using hms'
        | some kv =>
          have hkP : P kv.1 :=
            hrec kv (List.mem_filterMap.mpr ⟨lc, hlc, hp⟩)
          simp only [hp]
          exact ⟨dinsert_keys hms'.1 hkP, dinsert_keys hms'.2 hkP⟩

/-- C6 counterexample: with an empty requested set and a non-empty cache the
fetcher returns the whole cache unfiltered, and a response record carrying an
unrequested provider key introduces a derived identifier outside the
requested set. -/
theorem c6_only_requested_counterexample :
    get_stock_realtime_price_batch [] [] ⟨[("600000", 1)], [("600000", 1)]⟩ =
      ([("600000", 1)], [("600000", 1)]) ∧
    wanted_codes [] = [] ∧
    ((get_stock_realtime_price_batch ["600000"]
        [some "v_sz000002=\x220~B~2~3~2\x22"] ⟨[], []⟩).1.map Prod.fst) = ["000002"] ∧
    "000002" ∉ wanted_codes ["600000"] := by
  refine ⟨rfl, by decide, by decide, by decide⟩

/-- C6 amended: for every non-empty requested list, provided every parsed
response record resolves to a (normalized) requested identifier, both
returned maps contain only requested identifiers — in particular the cache
fallback paths filter the cached maps to the request; with an empty requested
list a non-empty cache is returned unfiltered, and records for unrequested
provider keys introduce derived keys outside the request (see the
counterexample). -/
theorem c6_only_requested_amended
    (stock_codes : List String) (responses : List (Option String)) (cache : StockCache)
    (hne : stock_codes ≠ [])
    (H : ∀ o ∈ responses, ∀ kv ∈ parsed_records (batch_items stock_codes) o,
      kv.1 ∈ wanted_codes stock_codes) :
    (∀ kv ∈ (get_stock_realtime_price_batch stock_codes responses cache).1,
      kv.1 ∈ wanted_codes stock_codes) ∧
    (∀ kv ∈ (get_stock_realtime_price_batch stock_codes responses cache).2,
      kv.1 ∈ wanted_codes stock_codes) := by
  unfold get_stock_realtime_price_batch
  rw [if_neg hne]
  simp only
  have hfilter : ∀ m : QMap, ∀ kv ∈ m.filter
      (fun kv => (wanted_codes stock_codes).contains kv.1),
      kv.1 ∈ wanted_codes stock_codes := by
    intro m kv hkv
    have := (List.mem_filter.mp hkv).2
    exact List.mem_of_elem_eq_true this
  by_cases ht : (batch_items stock_codes).map (fun it => it.1) = []
  · rw [if_pos ht]
    split
    · exact ⟨hfilter cache.price_map, hfilter cache.change_map⟩
    · exact ⟨by simp, by simp⟩
  · rw [if_neg ht]
    have hfold := foldl_preserve
      (fun ms : QMap × QMap =>
        (∀ kv ∈ ms.1, kv.1 ∈ wanted_codes stock_codes) ∧
        (∀ kv ∈ ms.2, kv.1 ∈ wanted_codes stock_codes))
      (fun ms i => process_response (batch_items stock_codes) ms (responses.getD i none))
      (List.range ((((batch_items stock_codes).map (fun it => it.1)).length + 80 - 1) / 80))
      ([], []) ?_ ⟨by simp, by simp⟩
    · split
      · exact hfold
      · split
        · exact ⟨hfilter cache.price_map, hfilter cache.change_map⟩
        · exact ⟨by simp, by simp⟩
    · intro ms i _ hms
      apply process_response_keys _ _ _ ?_ hms
      cases hg : responses[i]? with
      | none =>
        rw [show responses.getD i none = none by simp [List.getD, hg]]
        intro kv hkv
        simp [parsed_records] at hkv
      | some o =>
        rw [show responses.getD i none = o by simp [List.getD, hg]]
        exact H o (List.getElem?_mem hg)

/-- Witness for c6_only_requested_amended: one requested identifier, one
matching response record; the returned price map only carries requested
identifiers. -/
theorem c6_only_requested_amended_witness :
    (["600000"] : List String) ≠ [] ∧
    (∀ kv ∈ (get_stock_realtime_price_batch ["600000"]
        [some "v_sh600000=\x220~N~2~3~2\x22"] ⟨[], []⟩).1,
      kv.1 ∈ wanted_codes ["600000"]) :=
  ⟨by decide,
    (c6_only_requested_amended ["600000"] [some "v_sh600000=\x220~N~2~3~2\x22"]
      ⟨[], []⟩ (by decide) (by decide)).1⟩

end MomsFund
